import Mathlib

/-!
Shallow embedding of `hdock_batch.py`, a batch submitter that drives a
headless browser through the HDOCK web form once per CSV row.

Strings are modelled as `List Char`; the Python string operations used by the
program (`in`, `split`, `rstrip`, `strip`, `splitlines`, `startswith`,
`lower`) are embedded below with Python semantics.  The filesystem and the
browser are modelled as an explicit environment (`Env`): the `pathlib`
`expanduser().resolve()` normalisation is absorbed into the existence oracle
`fsExists`, page navigation and attachment verification outcomes are oracle
fields, and the post-submission `page.url` is the `resultUrl` field.
-/

namespace HdockBatch

/-- Python `sub in s` (contiguous substring test). -/
def pyContains (sub : List Char) : List Char → Bool
  | [] => sub.isEmpty
  | c :: rest => sub.isPrefixOf (c :: rest) || pyContains sub rest

/-- One step of Python `s.split(sep)` for a non-empty separator, with enough
fuel to scan the whole string; occurrences are consumed greedily left to
right exactly as CPython does.  `sep` is `"token="` or `"/"` in this
program, never empty. -/
def pySplitF (sep : List Char) : Nat → List Char → List (List Char)
  | _, [] => [[]]
  | 0, s => [s]
  | fuel+1, c :: rest =>
    if sep.isPrefixOf (c :: rest) then
      [] :: pySplitF sep fuel ((c :: rest).drop sep.length)
    else
      match pySplitF sep fuel rest with
      | [] => [[c]]
      | l :: ls => (c :: l) :: ls

/-- Python `s.split(sep)` for a non-empty separator. -/
def pySplit (sep s : List Char) : List (List Char) :=
  pySplitF sep s.length s

/-- Python `s.rstrip(cs)`: remove trailing characters drawn from `cs`. -/
def pyRstrip (cs : List Char) (s : List Char) : List Char :=
  ((s.reverse.dropWhile fun c => cs.contains c)).reverse

/-- The token-extraction logic of `submit_one` (source lines 102-109):
`result_url.split("token=")[-1]` when `"token=" in result_url`, otherwise
the last path segment of the URL with trailing slashes stripped, accepted
only when non-empty and at least 8 characters long. -/
def tokenFromUrl (result_url : List Char) : List Char :=
  if pyContains "token=".data result_url then
    (pySplit "token=".data result_url).getLastD []
  else
    let tail := (pySplit ['/'] (pyRstrip ['/'] result_url)).getLastD []
    if tail ≠ [] ∧ 8 ≤ tail.length then tail else []

/-- Characters that Python `str.splitlines` treats as line boundaries
(the `\r\n` pair is handled separately in `splitlinesGo`). -/
def isLineBoundary (c : Char) : Bool :=
  c = '\n' || c = '\r' || c = '\x0b' || c = '\x0c' ||
  c = '\x1c' || c = '\x1d' || c = '\x1e' || c = '\x85' ||
  c = '\u2028' || c = '\u2029'

/-- Worker for `pySplitlines`; `acc` holds the current line reversed. -/
def splitlinesGo (acc : List Char) : List Char → List (List Char)
  | [] => if acc.isEmpty then [] else [acc.reverse]
  | '\r' :: '\n' :: rest => acc.reverse :: splitlinesGo [] rest
  | c :: rest =>
    if isLineBoundary c then acc.reverse :: splitlinesGo [] rest
    else splitlinesGo (c :: acc) rest

/-- Python `s.splitlines()`. -/
def pySplitlines (s : List Char) : List (List Char) :=
  splitlinesGo [] s

/-- Characters that Python `str.strip()` removes. -/
def isPyWhitespace (c : Char) : Bool :=
  c = ' ' || c = '\t' || c = '\n' || c = '\r' || c = '\x0b' || c = '\x0c'

/-- Python `s.strip()`. -/
def pyStrip (s : List Char) : List Char :=
  ((s.dropWhile isPyWhitespace).reverse.dropWhile isPyWhitespace).reverse

/-- A CSV row as handed to `submit_one`: the dict produced by
`df.to_dict(orient="records")`, column names already lowercased. -/
def Row : Type := List (List Char × List Char)

/-- Dict lookup `row[k]` as an `Option` (`none` models `k not in row`). -/
def rowGet (row : Row) (k : List Char) : Option (List Char) :=
  match row with
  | [] => none
  | (k2, v) :: rest => if k2 = k then some v else rowGet rest k

/-- `pick(row, *candidates)` (source lines 26-30): the first candidate
column present in the row whose stripped value is non-empty, stripped;
otherwise the empty string. -/
def pick (row : Row) : List (List Char) → List Char
  | [] => []
  | c :: cs =>
    match rowGet row c with
    | some v => if (pyStrip v).isEmpty then pick row cs else pyStrip v
    | none => pick row cs

/-- The recognized ligand columns, in the order `pick` tries them
(also the `needed` set checked by `main`). -/
def ligandCols : List (List Char) :=
  ["ligand_fasta".data, "ligand_path".data, "ligand_seq".data,
   "ligand_sequence".data, "ligand_pdb".data, "ligand_file".data,
   "ligand".data]

/-- `ligand_raw.startswith(">") or "\n" in ligand_raw` (source line 67). -/
def isFastaText (ligand_raw : List Char) : Bool :=
  (['>'].isPrefixOf ligand_raw) || pyContains ['\n'] ligand_raw

/-- The resolved ligand payload: inline sequence text or a file path. -/
inductive Ligand where
  | seq (text : List Char)
  | file (path : List Char)
deriving DecidableEq

/-- Outcome of ligand resolution: a payload, the `ValueError` raised on an
empty candidate (source line 65), or the `FileNotFoundError` raised when the
candidate neither exists on disk nor looks like sequence text (line 79). -/
inductive LigandResult where
  | ok (lig : Ligand)
  | errMissing
  | errNotFound (path : List Char)
deriving DecidableEq

/-- Ligand autodetection, source lines 64-79.  `fsExists` is the filesystem
oracle standing for `pathlib.Path(...).expanduser().resolve().exists()`. -/
def resolveLigand (fsExists : List Char → Bool) (ligand_raw : List Char) :
    LigandResult :=
  if ligand_raw.isEmpty then .errMissing
  else if isFastaText ligand_raw ∧ 2 ≤ (pySplitlines ligand_raw).length then
    .ok (.seq ligand_raw)
  else if fsExists ligand_raw then
    .ok (.file ligand_raw)
  else if isFastaText ligand_raw then
    .ok (.seq ligand_raw)
  else
    .errNotFound ligand_raw

/-- The exceptions `submit_one` can raise: `page.goto` timeout (line 45),
receptor `FileNotFoundError` (line 50), the two ligand errors of
`resolveLigand`, and `RuntimeError` from `attach_file` verification
(lines 19-23). -/
inductive DriverErr where
  | navTimeout
  | receptorNotFound (path : List Char)
  | ligandMissing
  | ligandNotFound (path : List Char)
  | attachFailed (selector : List Char)
deriving DecidableEq

/-- The dict returned by `submit_one` (source lines 112-120). -/
structure ResultRecord where
  row : Nat
  timestamp : List Char
  jobname : List Char
  token : List Char
  result_url : List Char
  ok : Bool
  error : List Char
deriving DecidableEq

/-- The record literal of source lines 112-120: `ok` is `bool(token)` and
`error` is `"" if token else "submission_failed"`. -/
def mkResult (idx : Nat) (ts jobname token url : List Char) : ResultRecord :=
  ⟨idx, ts, jobname, token, url,
   !token.isEmpty,
   if token.isEmpty then "submission_failed".data else []⟩

/-- What `submit_one` does when run in this environment: either it returns a
`ResultRecord` or it raises a `DriverErr`. -/
inductive Outcome where
  | returns (r : ResultRecord)
  | raises (e : DriverErr)
deriving DecidableEq

/-- Oracle for everything outside the program: the filesystem, the browser
and the portal.  `fsExists` answers `.exists()` on a raw path string (path
normalisation absorbed), `navFails` tells whether `page.goto` times out,
`attachFails` tells whether the upload control named by a selector reports
zero files after `set_input_files`, and `resultUrl` is `page.url` after the
submit click settles. -/
structure Env where
  fsExists : List Char → Bool
  navFails : Bool
  attachFails : List Char → Bool
  resultUrl : List Char
  timestamp : List Char

/-- Shallow embedding of `submit_one` (source lines 41-120).  The `Bool`
component records whether `browser.close()` (line 111) ran before the
function returned or raised: the source has no `try/finally` around the
browser, so every raising path leaves it `false`.  The semaphore of line 42
is not modelled here (see the orchestrator).  Optional form fills
(binding site, email, jobname) cannot raise in this model; the jobname
value flows into the record as in line 115. -/
def submit_one (env : Env) (row : Row) (idx : Nat) : Outcome × Bool :=
  if env.navFails then (.raises .navTimeout, false)
  else
    let rec_path := (rowGet row "receptor_pdb".data).getD []
    if !env.fsExists rec_path then
      (.raises (.receptorNotFound rec_path), false)
    else if env.attachFails "#pdbfile1".data then
      (.raises (.attachFailed "#pdbfile1".data), false)
    else
      let ligand_raw := pyStrip (pick row ligandCols)
      match resolveLigand env.fsExists ligand_raw with
      | .errMissing => (.raises .ligandMissing, false)
      | .errNotFound p => (.raises (.ligandNotFound p), false)
      | .ok lig =>
        let attachErr : Bool :=
          match lig with
          | .file _ => env.attachFails "#pdbfile2".data
          | .seq _ => false
        if attachErr then (.raises (.attachFailed "#pdbfile2".data), false)
        else
          let jobname := pick row ["jobname".data, "name".data]
          let token := tokenFromUrl env.resultUrl
          (.returns (mkResult idx env.timestamp jobname token env.resultUrl),
           true)

/-- A line of the run log `run-log.csv`: the CSV header or one data row. -/
inductive LogLine where
  | header
  | data (r : ResultRecord)
deriving DecidableEq

/-- The log file contents plus the `header_written` flag of `main`
(a fresh Python local each run, source line 153). -/
structure LogState where
  lines : List LogLine
  headerWritten : Bool
deriving DecidableEq

/-- One iteration of the logging block (source lines 159-164): the file is
opened in append mode `"a"`, the header is written first if this run has
not yet written one, then the data row. -/
def logStep (st : LogState) (r : ResultRecord) : LogState :=
  ⟨st.lines ++ (if st.headerWritten then [.data r] else [.header, .data r]),
   true⟩

/-- The `for coro in asyncio.as_completed(tasks)` loop of `main`
(source lines 154-164), consuming task outcomes in completion order.
`res = await coro` re-raises an exception raised inside `submit_one`; the
loop body has no `try/except`, so the first raising outcome aborts the
loop, the remaining outcomes are dropped, and the exception escapes `main`
(returned here as `some e`). -/
def runLoop (st : LogState) : List Outcome → LogState × Option DriverErr
  | [] => (st, none)
  | .raises e :: _ => (st, some e)
  | .returns r :: rest => runLoop (logStep st r) rest

/-- The task list built by `main` (source lines 147-150): one `submit_one`
outcome per row, rows enumerated from 1. -/
def taskResults (env : Env) (rows : List Row) : List Outcome :=
  (List.enumFrom 1 rows).map fun p => (submit_one env p.2 p.1).1

/-- The submission-and-logging phase of `main`, starting from an empty log
file and an unwritten header.  Completion order is modelled as submission
order; theorems that depend on the order quantify over the outcome
sequence directly. -/
def runMain (env : Env) (rows : List Row) : LogState × Option DriverErr :=
  runLoop ⟨[], false⟩ (taskResults env rows)

/-- Python `s.lower()` (ASCII range, which covers the column names). -/
def pyLower (s : List Char) : List Char :=
  s.map Char.toLower

/-- Result of a whole `main` invocation: either `sys.exit(message)` (a
non-zero process exit carrying a diagnostic, before any browser work) or
the final log state and the exception, if any, that escaped the loop. -/
inductive MainOutcome where
  | exited (msg : List Char)
  | ran (st : LogState) (escaped : Option DriverErr)
deriving DecidableEq

/-- Whole-run model of `main` (source lines 124-164): lowercase the column
names, exit with a diagnostic if `receptor_pdb` is absent or no recognized
ligand column is present (`sys.exit` raises `SystemExit` with status 1),
otherwise run the submission loop. -/
def mainRun (env : Env) (cols : List (List Char)) (rows : List Row) :
    MainOutcome :=
  let lower := cols.map pyLower
  if !lower.contains "receptor_pdb".data then
    .exited "CSV requires \x27receptor_pdb\x27 column.".data
  else if !ligandCols.any lower.contains then
    .exited "CSV needs a ligand column (sequence text or file path).".data
  else
    .ran (runMain env rows).1 (runMain env rows).2

/-- Is a log line a data row (as opposed to the header row)? -/
def isDataLine : LogLine → Bool
  | .data _ => true
  | .header => false

/-- Concrete test environment: every path except `missing.pdb` exists,
navigation and attachments succeed, and the portal redirects to a result
page whose last path segment is a 10-character token. -/
def envC : Env :=
  ⟨fun p => !(p == "missing.pdb".data), false, fun _ => false,
   "http://hdock.phys.hust.edu.cn/data/AB12CD34XY".data,
   "2026-01-01 00:00:00".data⟩

/-- A row whose receptor file does not exist. -/
def rowMissingRec : Row :=
  [("receptor_pdb".data, "missing.pdb".data),
   ("ligand".data, "lig.pdb".data)]

/-- A row that submits successfully under `envC`. -/
def rowOk : Row :=
  [("receptor_pdb".data, "rec.pdb".data),
   ("ligand".data, "lig.pdb".data)]

/-- The record `submit_one envC rowOk 1` produces. -/
def recOk1 : ResultRecord :=
  mkResult 1 envC.timestamp [] "AB12CD34XY".data envC.resultUrl

/-- The record `submit_one envC rowOk 2` produces. -/
def recOk2 : ResultRecord :=
  mkResult 2 envC.timestamp [] "AB12CD34XY".data envC.resultUrl

end HdockBatch

namespace HdockBatch

/-- Claim C1: the orchestrator is claimed to catch every record-level
exception and convert it into a failure Result Record so the run continues.
The code does the opposite: with a nonexistent receptor path in row 1,
`submit_one` raises, `main` has no handler around `res = await coro`, the
exception escapes the loop (`some e`), nothing is logged, and row 2, which
would have produced a successful record, is dropped. -/
theorem c1_exception_escapes_orchestrator :
    runMain envC [rowMissingRec, rowOk]
      = (⟨[], false⟩, some (.receptorNotFound "missing.pdb".data))
    ∧ (submit_one envC rowOk 2).1 = .returns recOk2 := by
  decide

/-- Claim C2: the Form Driver is claimed to tear down its browser session
on every path.  The code closes the browser only on the success path (no
`try/finally`): on the missing-receptor row `submit_one` raises with the
close flag still `false`, while on a successful row the flag is `true`. -/
theorem c2_browser_left_open_on_raise :
    submit_one envC rowMissingRec 1
      = (.raises (.receptorNotFound "missing.pdb".data), false)
    ∧ (submit_one envC rowOk 2).2 = true := by
  decide

/-- Claim C3: for every Result Record the Form Driver returns, `ok` is true
iff `token` is non-empty; an empty token comes with the fixed error label
`submission_failed` and a non-empty token with an empty error string. -/
theorem c3_success_iff_token_nonempty :
    ∀ (env : Env) (row : Row) (idx : Nat) (r : ResultRecord) (closed : Bool),
      submit_one env row idx = (.returns r, closed) →
        (r.ok = true ↔ r.token ≠ []) ∧
        (r.token = [] → r.error = "submission_failed".data) ∧
        (r.token ≠ [] → r.error = []) := by
  intro env row idx r closed h
  simp only [submit_one] at h
  repeat' split at h
  all_goals first
  | (exfalso; simp at h; done)
  | (simp only [Prod.mk.injEq] at h
     obtain ⟨h1, -⟩ := h
     injection h1 with h1
     subst h1
     cases htok : tokenFromUrl env.resultUrl <;> simp [mkResult, htok])

theorem c3_witness :
    (recOk2.ok = true ↔ recOk2.token ≠ []) ∧
    (recOk2.token = [] → recOk2.error = "submission_failed".data) ∧
    (recOk2.token ≠ [] → recOk2.error = []) :=
  c3_success_iff_token_nonempty envC rowOk 2 recOk2 true (by decide)

end HdockBatch

namespace HdockBatch

/-- Claim C5: ligand resolution precedence on a non-empty raw string:
marker-or-newline text splitting into 2 or more lines is inline sequence
(whatever the filesystem says); otherwise an existing path is file mode;
otherwise sequence-looking text falls back to inline mode; otherwise
resolution fails with the ligand-not-found error. -/
theorem c5_ligand_precedence :
    ∀ (fs : List Char → Bool) (raw : List Char), raw ≠ [] →
      ((isFastaText raw = true ∧ 2 ≤ (pySplitlines raw).length) →
         resolveLigand fs raw = .ok (.seq raw)) ∧
      (¬(isFastaText raw = true ∧ 2 ≤ (pySplitlines raw).length) →
         fs raw = true → resolveLigand fs raw = .ok (.file raw)) ∧
      (¬(isFastaText raw = true ∧ 2 ≤ (pySplitlines raw).length) →
         fs raw = false → isFastaText raw = true →
         resolveLigand fs raw = .ok (.seq raw)) ∧
      (¬(isFastaText raw = true ∧ 2 ≤ (pySplitlines raw).length) →
         fs raw = false → isFastaText raw = false →
         resolveLigand fs raw = .errNotFound raw) := by
  intro fs raw hne
  have hemp : raw.isEmpty = false := by
    cases raw with
    | nil => exact absurd rfl hne
    | cons c cs => rfl
  refine ⟨?_, ?_, ?_, ?_⟩ <;> intro h1 <;>
    simp_all [resolveLigand]

theorem c5_witness :
    (isFastaText ">a\nSEQ".data = true ∧
       2 ≤ (pySplitlines ">a\nSEQ".data).length) ∧
    resolveLigand (fun _ => true) ">a\nSEQ".data = .ok (.seq ">a\nSEQ".data) :=
  ⟨by decide,
   (c5_ligand_precedence (fun _ => true) ">a\nSEQ".data (by decide)).1
     (by decide)⟩

/-- Claim C9: a single-line ligand string that starts with `>` but names an
existing path resolves to file mode, not inline mode: the inline-first rule
fires only for strings that split into 2 or more lines. -/
theorem c9_single_line_marker_is_file :
    ∀ (fs : List Char → Bool) (raw : List Char),
      ['>'].isPrefixOf raw = true → (pySplitlines raw).length < 2 →
      fs raw = true → resolveLigand fs raw = .ok (.file raw) := by
  intro fs raw hpre hlines hfs
  have hfasta : isFastaText raw = true := by
    simp [isFastaText, hpre]
  have hemp : raw.isEmpty = false := by
    cases raw with
    | nil => simp [List.isPrefixOf] at hpre
    | cons c cs => rfl
  simp [resolveLigand, hemp, hfasta, hfs, Nat.not_le.mpr hlines]

theorem c9_witness :
    (['>'].isPrefixOf ">abc".data = true ∧
       (pySplitlines ">abc".data).length < 2) ∧
    resolveLigand (fun _ => true) ">abc".data = .ok (.file ">abc".data) :=
  ⟨by decide,
   c9_single_line_marker_is_file (fun _ => true) ">abc".data (by decide)
     (by decide) (by decide)⟩

end HdockBatch

namespace HdockBatch

theorem runLoop_lines_frame :
    ∀ (outs : List Outcome) (prior : List LogLine) (hw : Bool),
      (runLoop ⟨prior, hw⟩ outs).1.lines
          = prior ++ (runLoop ⟨[], hw⟩ outs).1.lines
        ∧ (runLoop ⟨prior, hw⟩ outs).2 = (runLoop ⟨[], hw⟩ outs).2 := by
  intro outs
  induction outs with
  | nil => intro prior hw; simp [runLoop]
  | cons o rest ih =>
    intro prior hw
    cases o with
    | raises e => simp [runLoop]
    | returns r =>
      simp only [runLoop, logStep]
      constructor
      · rw [(ih _ true).1, (ih (List.nil ++ _) true).1]
        simp
      · rw [(ih _ true).2, (ih (List.nil ++ _) true).2]

/-- Claim C10: the log file is opened in append mode for every write and
never truncated: running the loop over a log that already has `prior`
lines yields `prior` followed by exactly the lines a run over an empty log
would write; in particular a fresh run over existing content appends its
own header row and data rows after the prior rows. -/
theorem c10_append_only :
    (∀ (prior : List LogLine) (hw : Bool) (outs : List Outcome),
       (runLoop ⟨prior, hw⟩ outs).1.lines
         = prior ++ (runLoop ⟨[], hw⟩ outs).1.lines) ∧
    (∀ (prior : List LogLine) (rs : List ResultRecord), rs ≠ [] →
       (runLoop ⟨prior, false⟩ (rs.map .returns)).1.lines
         = prior ++ LogLine.header :: rs.map LogLine.data) := by
  constructor
  · intro prior hw outs
    exact (runLoop_lines_frame outs prior hw).1
  · intro prior rs hne
    rw [(runLoop_lines_frame _ prior false).1]
    congr 1
    cases rs with
    | nil => exact absurd rfl hne
    | cons r rest =>
      simp only [List.map_cons, runLoop, logStep]
      have grow : ∀ (rest2 : List ResultRecord) (st : LogState),
          st.headerWritten = true →
          (runLoop st (rest2.map .returns)).1.lines
            = st.lines ++ rest2.map LogLine.data := by
        intro rest2
        induction rest2 with
        | nil => intro st hst; simp [runLoop]
        | cons q qs ihq =>
          intro st hst
          simp only [List.map_cons, runLoop, logStep, hst]
          rw [ihq _ rfl]
          simp
      rw [grow rest _ rfl]
      simp

theorem c10_append_only_witness :
    (runLoop ⟨[LogLine.header], false⟩ ([recOk1].map .returns)).1.lines
      = [LogLine.header] ++ LogLine.header :: [recOk1].map LogLine.data :=
  c10_append_only.2 [LogLine.header] [recOk1] (by decide)

/-- Claim C7 as stated is false on the code: after a run over one Job
Record whose receptor file is missing, the log contains zero data rows
(and no header), not exactly one row per input record, because the raised
exception aborts the logging loop. -/
theorem c7_counterexample :
    ((runMain envC [rowMissingRec]).1.lines.countP
        (fun l => isDataLine l) = 0) ∧
    ([rowMissingRec] : List Row).length = 1 := by
  decide

/-- Claim C7 amended: provided no record-level exception escapes (every
driver task returns a Result Record), the log after the run holds the
header exactly once, before the first data row, followed by exactly one
data row per completed record in completion order; and the number of task
outcomes equals the number of input rows. -/
theorem c7_log_complete_when_no_exception :
    (∀ rs : List ResultRecord,
       (runLoop ⟨[], false⟩ (rs.map .returns)).2 = none ∧
       (runLoop ⟨[], false⟩ (rs.map .returns)).1.lines
         = if rs.isEmpty then [] else LogLine.header :: rs.map LogLine.data) ∧
    (∀ (env : Env) (rows : List Row) (rs : List ResultRecord),
       taskResults env rows = rs.map Outcome.returns →
       (runMain env rows).1.lines
           = (if rs.isEmpty then [] else LogLine.header :: rs.map LogLine.data)
         ∧ rs.length = rows.length ∧ (runMain env rows).2 = none) := by
  have grow : ∀ (rest2 : List ResultRecord) (st : LogState),
      st.headerWritten = true →
      (runLoop st (rest2.map .returns))
        = (⟨st.lines ++ rest2.map LogLine.data, true⟩, none) := by
    intro rest2
    induction rest2 with
    | nil =>
      intro st hst
      cases st
      simp_all [runLoop]
    | cons q qs ihq =>
      intro st hst
      simp only [List.map_cons, runLoop, logStep, hst]
      rw [ihq _ rfl]
      simp
  have base : ∀ rs : List ResultRecord,
      (runLoop ⟨[], false⟩ (rs.map .returns)).2 = none ∧
      (runLoop ⟨[], false⟩ (rs.map .returns)).1.lines
        = if rs.isEmpty then [] else LogLine.header :: rs.map LogLine.data := by
    intro rs
    cases rs with
    | nil => simp [runLoop]
    | cons r rest =>
      simp only [List.map_cons, runLoop, logStep]
      rw [grow rest _ rfl]
      simp
  refine ⟨base, ?_⟩
  intro env rows rs h
  have hlen : (taskResults env rows).length = rows.length := by
    simp [taskResults, List.enumFrom_length]
  rw [h] at hlen
  simp only [List.length_map] at hlen
  unfold runMain
  rw [h]
  exact ⟨(base rs).2, hlen, (base rs).1⟩

theorem c7_amended_witness :
    taskResults envC [rowOk] = [recOk1].map Outcome.returns ∧
    (runMain envC [rowOk]).1.lines
        = (if ([recOk1] : List ResultRecord).isEmpty then []
           else LogLine.header :: [recOk1].map LogLine.data)
      ∧ ([recOk1] : List ResultRecord).length = ([rowOk] : List Row).length
      ∧ (runMain envC [rowOk]).2 = none :=
  ⟨by decide,
   c7_log_complete_when_no_exception.2 envC [rowOk] [recOk1] (by decide)⟩

end HdockBatch

namespace HdockBatch

theorem toLower_idem (c : Char) : c.toLower.toLower = c.toLower := by
  by_cases h : c.toNat ≥ 65 ∧ c.toNat ≤ 90
  · have hvalid : (c.toNat + 32).isValidChar := Or.inl (by omega)
    have hval : (Char.ofNat (c.toNat + 32)).toNat = c.toNat + 32 := by
      rw [Char.ofNat, dif_pos hvalid]
      rfl
    have h1 : c.toLower = Char.ofNat (c.toNat + 32) := by
      simp only [Char.toLower]
      rw [if_pos h]
    rw [h1]
    simp only [Char.toLower]
    rw [hval, if_neg (by omega)]
  · have h1 : c.toLower = c := by
      simp only [Char.toLower]
      rw [if_neg h]
    rw [h1, h1]

theorem pyLower_idem (s : List Char) : pyLower (pyLower s) = pyLower s := by
  simp only [pyLower, List.map_map, Function.comp]
  apply List.map_congr_left
  intro a ha
  exact toLower_idem a

end HdockBatch

namespace HdockBatch

/-- Claim C8: a missing `receptor_pdb` column, or the absence of every
recognized ligand column, makes `main` exit with a diagnostic before any
browser work (the outcome is independent of the browser environment and of
the rows), and column matching is case-insensitive (lowercasing the column
names first does not change the outcome). -/
theorem c8_column_validation :
    (∀ (env : Env) (cols : List (List Char)) (rows : List Row),
       (cols.map pyLower).contains "receptor_pdb".data = false →
       mainRun env cols rows
         = .exited "CSV requires \x27receptor_pdb\x27 column.".data) ∧
    (∀ (env : Env) (cols : List (List Char)) (rows : List Row),
       (cols.map pyLower).contains "receptor_pdb".data = true →
       ligandCols.any (cols.map pyLower).contains = false →
       mainRun env cols rows
         = .exited
             "CSV needs a ligand column (sequence text or file path).".data) ∧
    (∀ (env env2 : Env) (cols : List (List Char)) (rows rows2 : List Row)
       (msg : List Char),
       mainRun env cols rows = .exited msg →
       mainRun env2 cols rows2 = .exited msg) ∧
    (∀ (env : Env) (cols : List (List Char)) (rows : List Row),
       mainRun env (cols.map pyLower) rows = mainRun env cols rows) := by
  refine ⟨?_, ?_, ?_, ?_⟩
  · intro env cols rows h
    simp only [mainRun]
    rw [h]
    simp
  · intro env cols rows h1 h2
    simp only [mainRun]
    rw [h1, h2]
    simp
  · intro env env2 cols rows rows2 msg h
    simp only [mainRun] at h ⊢
    repeat' split at h
    all_goals (repeat' split)
    all_goals simp_all
  · intro env cols rows
    unfold mainRun
    have : (cols.map pyLower).map pyLower = cols.map pyLower := by
      simp only [List.map_map]
      apply List.map_congr_left
      intro a ha
      exact pyLower_idem a
    rw [this]

theorem c8_witness :
    (([] : List (List Char)).map pyLower).contains "receptor_pdb".data
        = false ∧
    mainRun envC [] []
      = .exited "CSV requires \x27receptor_pdb\x27 column.".data :=
  ⟨by decide, c8_column_validation.1 envC [] [] (by decide)⟩

end HdockBatch

namespace HdockBatch

theorem pySplitF_ne_nil (sep : List Char) (fuel : Nat) (s : List Char) :
    pySplitF sep fuel s ≠ [] := by
  cases s with
  | nil => cases fuel <;> simp [pySplitF]
  | cons c rest =>
    cases fuel with
    | zero => simp [pySplitF]
    | succ f =>
      simp only [pySplitF]
      split
      · simp
      · split <;> simp

theorem pySplitF_no_occurrence (sep : List Char) :
    ∀ (fuel : Nat) (s : List Char),
      s.length ≤ fuel → pyContains sep s = false → pySplitF sep fuel s = [s] := by
  intro fuel
  induction fuel with
  | zero =>
    intro s hlen hc
    cases s with
    | nil => simp [pySplitF]
    | cons c rest => simp at hlen
  | succ f ih =>
    intro s hlen hc
    cases s with
    | nil => simp [pySplitF]
    | cons c rest =>
      simp only [pyContains, Bool.or_eq_false_iff] at hc
      obtain ⟨h1, h2⟩ := hc
      have h3 := ih rest (by simp at hlen; omega) h2
      simp [pySplitF, h1, h3]

theorem pySplitF_two_chunks (sep : List Char) (hsep : sep ≠ []) :
    ∀ (fuel : Nat) (s : List Char),
      s.length ≤ fuel → pyContains sep s = true →
      2 ≤ (pySplitF sep fuel s).length := by
  intro fuel
  induction fuel with
  | zero =>
    intro s hlen hc
    cases s with
    | nil => simp [pyContains, List.isEmpty_iff] at hc; exact absurd hc hsep
    | cons c rest => simp at hlen
  | succ f ih =>
    intro s hlen hc
    cases s with
    | nil => simp [pyContains, List.isEmpty_iff] at hc; exact absurd hc hsep
    | cons c rest =>
      simp only [pySplitF]
      by_cases hp : sep.isPrefixOf (c :: rest) = true
      · rw [if_pos hp]
        have := List.length_pos.mpr
          (pySplitF_ne_nil sep f ((c :: rest).drop sep.length))
        simp only [List.length_cons]
        omega
      · rw [if_neg hp]
        simp only [pyContains, Bool.or_eq_true] at hc
        rcases hc with hc | hc
        · exact absurd hc hp
        · have h4 := ih rest (by simp at hlen; omega) hc
          rcases hY : pySplitF sep f rest with _ | ⟨l, ls⟩
          · rw [hY] at h4; simp at h4
          · rw [hY] at h4
            simp only [List.length_cons] at h4 ⊢
            omega

theorem pyContains_marker (sub a b : List Char) :
    pyContains sub (a ++ (sub ++ b)) = true := by
  induction a with
  | nil =>
    simp only [List.nil_append]
    have hp : sub.isPrefixOf (sub ++ b) = true :=
      List.isPrefixOf_iff_prefix.mpr (List.prefix_append sub b)
    cases hsb : sub ++ b with
    | nil =>
      rcases List.append_eq_nil.mp hsb with ⟨h1, -⟩
      simp [pyContains, h1]
    | cons x xs =>
      rw [hsb] at hp
      simp [pyContains, hp]
  | cons c a2 ih =>
    simp only [List.cons_append, pyContains]
    simp only [Bool.or_eq_true]
    exact Or.inr ih

theorem tokenMarker_no_overlap (pre t : List Char)
    (hp : ("token=".data).isPrefixOf (pre ++ ("token=".data ++ t)) = true) :
    pre.length = 0 ∨ 6 ≤ pre.length := by
  by_contra hcon
  push_neg at hcon
  obtain ⟨h0, h6⟩ := hcon
  rw [List.isPrefixOf_iff_prefix] at hp
  have htake := List.prefix_iff_eq_take.mp hp
  have hlen6 : ("token=".data).length = 6 := rfl
  rw [hlen6, List.take_append_eq_append_take,
      List.take_of_length_le (by omega : pre.length ≤ 6),
      List.take_append_eq_append_take, hlen6] at htake
  have hz : 6 - pre.length - 6 = 0 := by omega
  rw [hz, List.take_zero, List.append_nil] at htake
  have hdrop : ("token=".data).drop pre.length
      = ("token=".data).take (6 - pre.length) := by
    conv_lhs => rw [htake]
    rw [List.drop_left]
  set k := pre.length with hk
  interval_cases k
  · exact absurd rfl h0
  · exact absurd hdrop (by decide)
  · exact absurd hdrop (by decide)
  · exact absurd hdrop (by decide)
  · exact absurd hdrop (by decide)
  · exact absurd hdrop (by decide)

end HdockBatch

namespace HdockBatch

theorem pySplitF_cons_pos (sep : List Char) (f : Nat) (c : Char)
    (rest : List Char) (h : sep.isPrefixOf (c :: rest) = true) :
    pySplitF sep (f+1) (c :: rest)
      = [] :: pySplitF sep f ((c :: rest).drop sep.length) := by
  simp [pySplitF, h]

theorem pySplitF_cons_neg (sep : List Char) (f : Nat) (c : Char)
    (rest : List Char) (h : sep.isPrefixOf (c :: rest) = false) :
    pySplitF sep (f+1) (c :: rest)
      = match pySplitF sep f rest with
        | [] => [[c]]
        | l :: ls => (c :: l) :: ls := by
  simp [pySplitF, h]

theorem pySplitF_last_after_marker :
    ∀ (fuel : Nat) (pre t : List Char),
      pyContains "token=".data t = false →
      (pre ++ ("token=".data ++ t)).length ≤ fuel →
      (pySplitF "token=".data fuel
          (pre ++ ("token=".data ++ t))).getLastD [] = t := by
  intro fuel
  induction fuel with
  | zero =>
    intro pre t hc hlen
    simp only [List.length_append, List.length_cons, List.length_nil] at hlen
    omega
  | succ f ih =>
    intro pre t hc hlen
    cases pre with
    | nil =>
      have e1 : ([] : List Char) ++ ("token=".data ++ t)
          = 't' :: ("oken=".data ++ t) := rfl
      rw [e1]
      have hp : ("token=".data).isPrefixOf ('t' :: ("oken=".data ++ t)) = true := by
        have := List.isPrefixOf_iff_prefix.mpr
          (List.prefix_append "token=".data t)
        exact this
      rw [pySplitF_cons_pos _ _ _ _ hp]
      have e2 : ('t' :: ("oken=".data ++ t)).drop ("token=".data).length = t := by
        rfl
      rw [e2]
      have hlt : t.length ≤ f := by
        rw [e1] at hlen
        simp only [List.length_cons, List.length_append] at hlen
        have : ("oken=".data).length = 5 := rfl
        omega
      rw [pySplitF_no_occurrence _ f t hlt hc]
      simp [List.getLastD_cons]
    | cons c pre2 =>
      by_cases hp : ("token=".data).isPrefixOf
          (c :: (pre2 ++ ("token=".data ++ t))) = true
      · have hover := tokenMarker_no_overlap (c :: pre2) t
          (by simpa using hp)
        have h5 : 5 ≤ pre2.length := by
          simp only [List.length_cons] at hover
          rcases hover with h | h
          · omega
          · omega
        rw [show (c :: pre2) ++ ("token=".data ++ t)
            = c :: (pre2 ++ ("token=".data ++ t)) from rfl]
        rw [pySplitF_cons_pos _ _ _ _ hp]
        have e3 : (c :: (pre2 ++ ("token=".data ++ t))).drop ("token=".data).length
            = (pre2.drop 5) ++ ("token=".data ++ t) := by
          have h6 : ("token=".data).length = 6 := rfl
          rw [h6, List.drop_succ_cons, List.drop_append_eq_append_drop,
              Nat.sub_eq_zero_of_le h5, List.drop_zero]
        rw [e3]
        have hlen2 : ((pre2.drop 5) ++ ("token=".data ++ t)).length ≤ f := by
          simp only [List.length_append, List.length_drop, List.length_cons,
            List.length_nil] at hlen ⊢
          omega
        rw [List.getLastD_cons]
        have hne := pySplitF_ne_nil "token=".data f
          ((pre2.drop 5) ++ ("token=".data ++ t))
        have hind := ih (pre2.drop 5) t hc hlen2
        rcases hY : pySplitF "token=".data f ((pre2.drop 5) ++ ("token=".data ++ t))
          with _ | ⟨l, ls⟩
        · exact absurd hY hne
        · rw [hY] at hind
          simpa [List.getLastD_cons] using hind
      · have hp2 : ("token=".data).isPrefixOf
            (c :: (pre2 ++ ("token=".data ++ t))) = false := by
          rcases hXX : ("token=".data).isPrefixOf
              (c :: (pre2 ++ ("token=".data ++ t))) with _ | _
          · rfl
          · exact absurd hXX hp
        rw [show (c :: pre2) ++ ("token=".data ++ t)
            = c :: (pre2 ++ ("token=".data ++ t)) from rfl]
        rw [pySplitF_cons_neg _ _ _ _ hp2]
        have hcont : pyContains "token=".data (pre2 ++ ("token=".data ++ t)) = true :=
          pyContains_marker _ _ _
        have hlen3 : (pre2 ++ ("token=".data ++ t)).length ≤ f := by
          simp only [List.length_cons, List.length_append, List.length_nil] at hlen ⊢
          omega
        have htwo := pySplitF_two_chunks "token=".data (by decide) f _ hlen3 hcont
        have hind := ih pre2 t hc hlen3
        rcases hY : pySplitF "token=".data f (pre2 ++ ("token=".data ++ t))
          with _ | ⟨l, ls⟩
        · rw [hY] at htwo; simp at htwo
        · rcases ls with _ | ⟨l2, ls2⟩
          · rw [hY] at htwo; simp at htwo
          · rw [hY] at hind
            simp only [List.getLastD_cons] at hind ⊢
            exact hind

end HdockBatch

namespace HdockBatch

/-- Claim C4: token extraction yields everything after the (last) `token=`
marker when the URL contains one (the part before the marker and the text
after it are arbitrary, provided the marker does not recur later); otherwise
the last path segment after stripping trailing slashes, accepted only when
at least 8 characters long; otherwise the empty token.  Includes the three
example URLs of the spec. -/
theorem c4_token_extraction :
    (∀ (pre t : List Char), pyContains "token=".data t = false →
       tokenFromUrl (pre ++ ("token=".data ++ t)) = t) ∧
    (∀ url : List Char, pyContains "token=".data url = false →
       tokenFromUrl url
         = (let tail := (pySplit ['/'] (pyRstrip ['/'] url)).getLastD []
            if 8 ≤ tail.length then tail else [])) ∧
    tokenFromUrl "http://hdock.phys.hust.edu.cn/jobs?token=AB12CD34".data
      = "AB12CD34".data ∧
    tokenFromUrl "http://hdock.phys.hust.edu.cn/result/AB12CD34XY".data
      = "AB12CD34XY".data ∧
    tokenFromUrl "http://hdock.phys.hust.edu.cn/result/short".data = [] := by
  refine ⟨?_, ?_, by decide, by decide, by decide⟩
  · intro pre t hc
    have hcont := pyContains_marker "token=".data pre t
    simp only [tokenFromUrl]
    rw [if_pos hcont]
    exact pySplitF_last_after_marker _ pre t hc (le_refl _)
  · intro url h
    simp only [tokenFromUrl]
    rw [if_neg (by simp [h])]
    by_cases h8 : 8 ≤ ((pySplit ['/'] (pyRstrip ['/'] url)).getLastD []).length
    · have hne : (pySplit ['/'] (pyRstrip ['/'] url)).getLastD [] ≠ [] := by
        intro he
        rw [he] at h8
        simp at h8
      rw [if_pos ⟨hne, h8⟩, if_pos h8]
    · rw [if_neg (by tauto), if_neg h8]

theorem c4_witness :
    pyContains "token=".data "AB12CD34".data = false ∧
    tokenFromUrl ("http://h/jobs?".data ++ ("token=".data ++ "AB12CD34".data))
      = "AB12CD34".data :=
  ⟨by decide, c4_token_extraction.1 "http://h/jobs?".data "AB12CD34".data (by decide)⟩

end HdockBatch
